import Mathlib

/-!
Shallow embedding of the browser-side view layer of the load-provenance
tracking client: the records list view (with its module-level filter,
polling refresh loop, filtering and pagination) and the per-record
ownership-provenance view.  Field accesses that may be absent in the
JavaScript data are modelled with Option; an operation that would throw a
TypeError is modelled as an Except error.
-/

namespace FishClient

/-- A named attribute of a record.  The reporters field may be absent in the
raw data, which is modelled with Option; updates holds the timestamps of the
property updates. -/
structure RecordProperty where
  name : String
  reporters : Option (List String)
  updates : List Int
deriving DecidableEq

/-- A tracked load record as delivered by the backend. -/
structure Record where
  recordId : String
  owner : String
  custodian : String
  properties : List RecordProperty
deriving DecidableEq

/-- One segment of the ownership history of a record. -/
structure OwnerEntry where
  name : String
  timestamp : Int
deriving DecidableEq

/-- Page size shared by both views. -/
def PAGE_SIZE : Nat := 50

/-- Modelled from the spec: the function getLatestPropertyUpdateTime lives in
src/fish_client/src/utils/records.js, which is absent from the sources; per
the spec it returns the latest-update timestamp of a record, i.e. the maximum
timestamp among all property updates, taken as 0 when no update exists. -/
def getLatestPropertyUpdateTime (r : Record) : Int :=
  r.properties.foldl (fun acc p => p.updates.foldl max acc) 0

/-- The order the comparator of the list view sort induces: the comparator
subtracts the latest update time of the first record from that of the second,
so a record sorts no later than another when its latest update time is at
least as large. -/
def laterFirst (a b : Record) : Prop :=
  getLatestPropertyUpdateTime b ≤ getLatestPropertyUpdateTime a

instance : DecidableRel laterFirst := by
  unfold laterFirst
  infer_instance

instance : IsTotal Record laterFirst :=
  ⟨fun a b => le_total (getLatestPropertyUpdateTime b) (getLatestPropertyUpdateTime a)⟩

instance : IsTrans Record laterFirst :=
  ⟨fun _ _ _ hab hbc => le_trans hbc hab⟩

/-- The sort performed in the refresh callback of the list view: sort the
fetched records descending by latest property update time.  The browser sort
routine is engine internal; it is modelled by insertion sort, which produces
a permutation of its input pairwise ordered by the comparator, exactly what
the language specification promises of the library sort. -/
def sortRecords (records : List Record) : List Record :=
  records.insertionSort laterFirst

/-- Filter condition of the owned mode: the record owner equals the viewer
public key. -/
def ownedCond (publicKey : String) (r : Record) : Bool :=
  r.owner == publicKey

/-- Filter condition of the custodian mode: the record custodian equals the
viewer public key. -/
def custodianCond (publicKey : String) (r : Record) : Bool :=
  r.custodian == publicKey

/-- Reading indexOf on the reporters list of a property: fails when the
reporters field is absent, mirroring the TypeError the JavaScript would
throw. -/
def reportersIndexOfPos (reporters : Option (List String)) (publicKey : String) :
    Except Unit Bool :=
  match reporters with
  | some rs => .ok (rs.contains publicKey)
  | none => .error ()

/-- The reduce callback of the reporting mode: the short-circuit of the
boolean or, so the reporters list of a property is only read when no earlier
property matched. -/
def reportingStep (publicKey : String) (owned : Bool) (prop : RecordProperty) :
    Except Unit Bool :=
  if owned then .ok true else reportersIndexOfPos prop.reporters publicKey

/-- Filter condition of the reporting mode: the reduce over the properties of
the record starting from false. -/
def reportingCond (publicKey : String) (r : Record) : Except Unit Bool :=
  r.properties.foldlM (reportingStep publicKey) false

/-- Array filter with a condition that may throw: the whole filter fails as
soon as the condition fails on some element. -/
def filterExcept (cond : Record → Except Unit Bool) : List Record → Except Unit (List Record)
  | [] => .ok []
  | r :: rs => do
    let b ← cond r
    let rest ← filterExcept cond rs
    pure (if b then r :: rest else rest)

/-- The function filterRecords of the list view, written as a pure function
from the records array, the previous filtered array, the viewer public key
and the module-level filter value to the new filtered array.  With a falsy
public key the body is skipped and the previous filtered array is kept; an
unrecognised or unset filter value leaves filterCondition unset and the full
records array is assigned. -/
def filterRecords (records : List Record) (filteredRecords : List Record)
    (publicKey : String) (filter : Option String) : Except Unit (List Record) :=
  if publicKey ≠ "" then
    match filter with
    | some "owned" => .ok (records.filter (ownedCond publicKey))
    | some "custodian" => .ok (records.filter (custodianCond publicKey))
    | some "reporting" => filterExcept (reportingCond publicKey) records
    | _ => .ok records
  else .ok filteredRecords

/-- The per-activation state of the list view (vnode.state), together with
the bookkeeping of the event loop: whether an uncancelled timeout is pending
(refreshId), whether a fetch is awaiting its response, and whether the view
is still mounted. -/
structure FishListState where
  records : List Record
  filteredRecords : List Record
  currentPage : Nat
  refreshScheduled : Bool
  inFlight : Bool
  active : Bool
deriving DecidableEq

/-- The state created by oninit: empty arrays, page 0, and the first fetch of
the refresh chain already issued. -/
def oninitState : FishListState :=
  { records := []
    filteredRecords := []
    currentPage := 0
    refreshScheduled := false
    inFlight := true
    active := true }

/-- The list view model: the module-level filter variable together with the
view state.  The filter variable lives outside the view state, so it
survives the teardown and re-creation of the view. -/
structure ListModel where
  filter : Option String
  st : FishListState
deriving DecidableEq

/-- The model at module load with the first view activation. -/
def initListModel : ListModel :=
  { filter := none, st := oninitState }

/-- Events driving the list view: resolution of the pending fetch, firing of
the scheduled timeout, the four filter buttons, page selection, and the
lifecycle events. -/
inductive ListEvent where
  | fetchResolve (records : List Record)
  | timerFire
  | selectAll
  | selectFilter (f : String)
  | setPage (p : Nat)
  | deactivate
  | activate
deriving DecidableEq

/-- One step of the list view.  A fetch resolution runs the refresh callback
even when the view was deactivated meanwhile: it stores the sorted records,
re-applies the module-level filter, and schedules the next refresh; when the
filtering throws, the records are already mutated but the chained callback
that schedules the next refresh is skipped.  The timeout clears the
scheduled flag and issues the next fetch.  The All button assigns the full
records array without touching the module-level filter; the other filter
buttons set the module-level filter and re-filter.  Deactivation runs
onbeforeremove, which clears the pending timeout and nothing else. -/
def listStep (publicKey : String) (m : ListModel) : ListEvent → ListModel
  | .fetchResolve resp =>
    if m.st.inFlight then
      match filterRecords (sortRecords resp) m.st.filteredRecords publicKey m.filter with
      | .ok filtered =>
        { m with st := { m.st with
            records := sortRecords resp
            filteredRecords := filtered
            inFlight := false
            refreshScheduled := true } }
      | .error _ =>
        { m with st := { m.st with
            records := sortRecords resp
            inFlight := false
            refreshScheduled := false } }
    else m
  | .timerFire =>
    if m.st.refreshScheduled then
      { m with st := { m.st with refreshScheduled := false, inFlight := true } }
    else m
  | .selectAll =>
    { m with st := { m.st with filteredRecords := m.st.records } }
  | .selectFilter f =>
    match filterRecords m.st.records m.st.filteredRecords publicKey (some f) with
    | .ok filtered =>
      { filter := some f, st := { m.st with filteredRecords := filtered } }
    | .error _ =>
      { filter := some f, st := m.st }
  | .setPage p =>
    { m with st := { m.st with currentPage := p } }
  | .deactivate =>
    { m with st := { m.st with active := false, refreshScheduled := false } }
  | .activate =>
    { m with st := oninitState }

/-- Running the list view through a sequence of events. -/
def listRun (publicKey : String) (m : ListModel) (evs : List ListEvent) : ListModel :=
  evs.foldl (listStep publicKey) m

/-- Events that need no user interaction: fetch resolutions and timer
firings.  These are the only events that can still occur after the view is
deactivated. -/
def isEnvEvent : ListEvent → Bool
  | .fetchResolve _ => true
  | .timerFire => true
  | _ => false

/-- Events coming from the filter buttons, which the view only renders for an
authenticated viewer. -/
def isFilterButtonEvent : ListEvent → Bool
  | .selectAll => true
  | .selectFilter _ => true
  | _ => false

/-- Slicing of a JavaScript array with nonnegative indices: the elements from
index a inclusive to index b exclusive. -/
def jsSlice (l : List Record) (a b : Nat) : List Record :=
  (l.drop a).take (b - a)

/-- The rows the list view renders: the slice of the filtered records from
currentPage times the page size to the next page boundary. -/
def visibleRows (s : FishListState) : List Record :=
  jsSlice s.filteredRecords (s.currentPage * PAGE_SIZE) ((s.currentPage + 1) * PAGE_SIZE)

/-- The maxPage value the list view passes to the paging buttons:
Math.floor of the filtered length over the page size. -/
def pagingMaxPage (s : FishListState) : Nat :=
  s.filteredRecords.length / PAGE_SIZE

/-- What the control-button row of the list view renders. -/
structure Controls where
  hasFilterGroup : Bool
  hasPagingButtons : Bool
  maxPage : Nat
deriving DecidableEq

/-- The function controlButtons of the list view: with a truthy public key a
filter group plus paging buttons, otherwise paging buttons only. -/
def controlButtons (s : FishListState) (publicKey : String) : Controls :=
  if publicKey ≠ "" then
    { hasFilterGroup := true, hasPagingButtons := true, maxPage := pagingMaxPage s }
  else
    { hasFilterGroup := false, hasPagingButtons := true, maxPage := pagingMaxPage s }

/-- The per-activation state of the provenance view.  The property field is
declared because the view reads it, but no code path of the view assigns
it. -/
structure ProvenanceState where
  currentPage : Nat
  provenance : Option (List OwnerEntry)
  property : Option RecordProperty
  refreshScheduled : Bool
  inFlight : Bool
  active : Bool
deriving DecidableEq

/-- The provenance view state created by oninit: page 0, no data yet, first
fetch issued. -/
def provOninitState : ProvenanceState :=
  { currentPage := 0
    provenance := none
    property := none
    refreshScheduled := false
    inFlight := true
    active := true }

/-- Events driving the provenance view. -/
inductive ProvEvent where
  | fetchResolve (owners : List OwnerEntry)
  | timerFire
  | setPage (p : Nat)
  | deactivate
deriving DecidableEq

/-- One step of the provenance view: a fetch resolution stores the fetched
ownership history and schedules the next refresh, the timeout issues the
next fetch, and deactivation clears the pending timeout. -/
def provStep (s : ProvenanceState) : ProvEvent → ProvenanceState
  | .fetchResolve owners =>
    if s.inFlight then
      { s with provenance := some owners, inFlight := false, refreshScheduled := true }
    else s
  | .timerFire =>
    if s.refreshScheduled then
      { s with refreshScheduled := false, inFlight := true }
    else s
  | .setPage p => { s with currentPage := p }
  | .deactivate => { s with active := false, refreshScheduled := false }

/-- Running the provenance view through a sequence of events. -/
def provRun (s : ProvenanceState) (evs : List ProvEvent) : ProvenanceState :=
  evs.foldl provStep s

/-- The safe-default lookup of property.reporters in the view, with an empty
list when the property or its reporters list is absent. -/
def lodashGetPropertyReporters (s : ProvenanceState) : List String :=
  match s.property with
  | some prop =>
    match prop.reporters with
    | some rs => rs
    | none => []
  | none => []

/-- The safe-default lookup of the provenance field in the view, with an
empty list when it was never fetched. -/
def lodashGetProvenance (s : ProvenanceState) : List OwnerEntry :=
  s.provenance.getD []

/-- Whether the view would render the update-submission form: the viewer
public key is contained in the reporters list read with a safe default. -/
def showsUpdateForm (s : ProvenanceState) (publicKey : String) : Bool :=
  (lodashGetPropertyReporters s).contains publicKey

/-- The maxPage value the provenance view passes to the paging buttons: the
length of the ownership history divided by the page size as JavaScript
number division, i.e. exact division without flooring. -/
def provenanceMaxPage (s : ProvenanceState) : ℚ :=
  ((lodashGetProvenance s).length : ℚ) / (PAGE_SIZE : ℚ)

/-- A well-formed record carries a reporters list on each of its
properties. -/
def WellFormedRecord (r : Record) : Prop :=
  ∀ p ∈ r.properties, p.reporters ≠ none

/-- The membership test the reporting filter performs on one property once
the reporters list is read with an empty default. -/
def reportsTo (publicKey : String) (p : RecordProperty) : Bool :=
  (p.reporters.getD []).contains publicKey

/-- Sample property with a reporters list. -/
def speciesProp : RecordProperty :=
  { name := "species", reporters := some ["alice"], updates := [3] }

/-- Sample property whose reporters field is absent. -/
def bareProp : RecordProperty :=
  { name := "weight", reporters := none, updates := [] }

/-- Sample record owned by alice. -/
def recA : Record :=
  { recordId := "rec-a", owner := "alice", custodian := "carol",
    properties := [speciesProp] }

/-- Sample record owned by bob with alice as custodian. -/
def recB : Record :=
  { recordId := "rec-b", owner := "bob", custodian := "alice",
    properties := [{ name := "species", reporters := some ["bob"], updates := [7] }] }

/-- Sample record carrying a property with an absent reporters field. -/
def badRecord : Record :=
  { recordId := "rec-bad", owner := "alice", custodian := "bob",
    properties := [bareProp] }

instance (r : Record) : Decidable (WellFormedRecord r) := by
  unfold WellFormedRecord
  infer_instance

/-- Sample list view state with two loaded records. -/
def sampleListState : FishListState :=
  { records := [recB, recA], filteredRecords := [recB, recA], currentPage := 0,
    refreshScheduled := true, inFlight := false, active := true }

/-- Sample list model with the custodian filter stored and a fetch in
flight. -/
def custodianModel : ListModel :=
  { filter := some "custodian",
    st := { oninitState with records := [recA], filteredRecords := [recA] } }

/-- Sample list model with the owned filter stored and a fetch in flight. -/
def ownedModel : ListModel :=
  { filter := some "owned",
    st := { oninitState with records := [recA, recB], filteredRecords := [recA] } }

/-- Sample provenance state with one fetched owner entry. -/
def sampleProvState : ProvenanceState :=
  { currentPage := 0, provenance := some [{ name := "alice", timestamp := 5 }],
    property := none, refreshScheduled := true, inFlight := false, active := true }

/-- Sample list view state holding a single filtered record. -/
def oneRecordListState : FishListState :=
  { records := [recA], filteredRecords := [recA], currentPage := 0,
    refreshScheduled := false, inFlight := false, active := true }

theorem except_ok_bind {α β : Type} (a : α) (f : α → Except Unit β) :
    ((Except.ok a : Except Unit α) >>= f) = f a := rfl

theorem foldlM_cons_eq {α σ : Type} (f : σ → α → Except Unit σ) (b : σ) (a : α)
    (l : List α) :
    List.foldlM f b (a :: l) = (f b a >>= fun s => List.foldlM f s l) := rfl

theorem foldlM_reporting_ok (publicKey : String) (props : List RecordProperty) (b : Bool)
    (hwf : ∀ p ∈ props, p.reporters ≠ none) :
    props.foldlM (reportingStep publicKey) b =
      .ok (b || props.any (reportsTo publicKey)) := by
  induction props generalizing b with
  | nil => simp [List.foldlM]; rfl
  | cons p ps ih =>
    have hp : p.reporters ≠ none := hwf p (List.mem_cons_self p ps)
    have hps : ∀ q ∈ ps, q.reporters ≠ none := fun q hq => hwf q (List.mem_cons_of_mem p hq)
    rw [foldlM_cons_eq]
    cases b with
    | true =>
      rw [show reportingStep publicKey true p = Except.ok true from rfl, except_ok_bind,
        ih true hps]
      simp
    | false =>
      obtain ⟨rs, hrs⟩ : ∃ rs, p.reporters = some rs := by
        cases h : p.reporters with
        | some rs => exact ⟨rs, rfl⟩
        | none => exact absurd h hp
      have hstep : reportingStep publicKey false p = .ok (rs.contains publicKey) := by
        simp [reportingStep, reportersIndexOfPos, hrs]
      rw [hstep, except_ok_bind, ih (rs.contains publicKey) hps]
      simp [reportsTo, hrs]

theorem reportingCond_ok (publicKey : String) (r : Record) (hwf : WellFormedRecord r) :
    reportingCond publicKey r = .ok (r.properties.any (reportsTo publicKey)) := by
  have h := foldlM_reporting_ok publicKey r.properties false hwf
  simpa [reportingCond] using h

theorem filterExcept_ok (cond : Record → Except Unit Bool) (g : Record → Bool)
    (l : List Record) (h : ∀ r ∈ l, cond r = .ok (g r)) :
    filterExcept cond l = .ok (l.filter g) := by
  induction l with
  | nil => rfl
  | cons r rs ih =>
    have hr : cond r = .ok (g r) := h r (List.mem_cons_self r rs)
    have hrs : ∀ q ∈ rs, cond q = .ok (g q) := fun q hq => h q (List.mem_cons_of_mem r hq)
    cases hg : g r <;>
      simp only [filterExcept, hr, ih hrs, List.filter_cons, hg] <;> rfl

theorem filterRecords_falsy (records oldFiltered : List Record) (filter : Option String) :
    filterRecords records oldFiltered "" filter = .ok oldFiltered := by
  simp [filterRecords]

theorem filterRecords_owned (records oldFiltered : List Record) (publicKey : String)
    (hpk : publicKey ≠ "") :
    filterRecords records oldFiltered publicKey (some "owned") =
      .ok (records.filter (ownedCond publicKey)) := by
  unfold filterRecords
  rw [if_pos hpk]
  rfl

theorem filterRecords_custodian (records oldFiltered : List Record) (publicKey : String)
    (hpk : publicKey ≠ "") :
    filterRecords records oldFiltered publicKey (some "custodian") =
      .ok (records.filter (custodianCond publicKey)) := by
  unfold filterRecords
  rw [if_pos hpk]
  rfl

theorem filterRecords_reporting (records oldFiltered : List Record) (publicKey : String)
    (hpk : publicKey ≠ "") (hwf : ∀ r ∈ records, WellFormedRecord r) :
    filterRecords records oldFiltered publicKey (some "reporting") =
      .ok (records.filter (fun r => r.properties.any (reportsTo publicKey))) := by
  unfold filterRecords
  rw [if_pos hpk]
  show filterExcept (reportingCond publicKey) records = _
  exact filterExcept_ok _ _ _ (fun r hr => reportingCond_ok publicKey r (hwf r hr))

theorem filterRecords_default (records oldFiltered : List Record) (publicKey : String)
    (filter : Option String) (hpk : publicKey ≠ "")
    (h1 : filter ≠ some "owned") (h2 : filter ≠ some "custodian")
    (h3 : filter ≠ some "reporting") :
    filterRecords records oldFiltered publicKey filter = .ok records := by
  unfold filterRecords
  rw [if_pos hpk]
  split
  · exact absurd rfl h1
  · exact absurd rfl h2
  · exact absurd rfl h3
  · rfl

theorem filterRecords_ok_of_wf (records oldFiltered : List Record) (publicKey : String)
    (filter : Option String) (hwf : ∀ r ∈ records, WellFormedRecord r) :
    ∃ out, filterRecords records oldFiltered publicKey filter = .ok out ∧
      (publicKey ≠ "" → out ⊆ records) := by
  by_cases hpk : publicKey = ""
  · subst hpk
    exact ⟨oldFiltered, filterRecords_falsy records oldFiltered filter,
      fun h => absurd rfl h⟩
  · by_cases h1 : filter = some "owned"
    · subst h1
      exact ⟨_, filterRecords_owned records oldFiltered publicKey hpk,
        fun _ => List.filter_subset' records⟩
    · by_cases h2 : filter = some "custodian"
      · subst h2
        exact ⟨_, filterRecords_custodian records oldFiltered publicKey hpk,
          fun _ => List.filter_subset' records⟩
      · by_cases h3 : filter = some "reporting"
        · subst h3
          exact ⟨_, filterRecords_reporting records oldFiltered publicKey hpk hwf,
            fun _ => List.filter_subset' records⟩
        · exact ⟨records, filterRecords_default records oldFiltered publicKey filter hpk h1 h2 h3,
            fun _ => List.Subset.refl records⟩

theorem sortRecords_perm (records : List Record) : (sortRecords records).Perm records :=
  List.perm_insertionSort laterFirst records

theorem sortRecords_pairwise (records : List Record) :
    (sortRecords records).Pairwise
      (fun a b => getLatestPropertyUpdateTime b ≤ getLatestPropertyUpdateTime a) := by
  have h : List.Sorted laterFirst (sortRecords records) :=
    List.sorted_insertionSort laterFirst records
  exact h.imp (fun hab => hab)

theorem listStep_fetchResolve_ok (publicKey : String) (m : ListModel)
    (resp out : List Record) (hin : m.st.inFlight = true)
    (hok : filterRecords (sortRecords resp) m.st.filteredRecords publicKey m.filter = .ok out) :
    listStep publicKey m (.fetchResolve resp) =
      { m with st := { m.st with
          records := sortRecords resp
          filteredRecords := out
          inFlight := false
          refreshScheduled := true } } := by
  simp [listStep, hin, hok]

theorem listStep_fetch_records (publicKey : String) (m : ListModel) (resp : List Record)
    (hin : m.st.inFlight = true) :
    (listStep publicKey m (.fetchResolve resp)).st.records = sortRecords resp := by
  cases hf : filterRecords (sortRecords resp) m.st.filteredRecords publicKey m.filter with
  | ok out => simp [listStep, hin, hf]
  | error e => simp [listStep, hin, hf]

theorem provStep_property (s : ProvenanceState) (e : ProvEvent) :
    (provStep s e).property = s.property := by
  cases e with
  | fetchResolve owners =>
    by_cases h : s.inFlight = true <;> simp [provStep, h]
  | timerFire =>
    by_cases h : s.refreshScheduled = true <;> simp [provStep, h]
  | setPage p => rfl
  | deactivate => rfl

theorem provRun_property (s : ProvenanceState) (evs : List ProvEvent) :
    (provRun s evs).property = s.property := by
  induction evs generalizing s with
  | nil => rfl
  | cons e evs ih =>
    show (provRun (provStep s e) evs).property = s.property
    rw [ih (provStep s e), provStep_property]

theorem listStep_env_fixed (publicKey : String) (m : ListModel) (e : ListEvent)
    (hin : m.st.inFlight = false) (hrs : m.st.refreshScheduled = false)
    (he : isEnvEvent e = true) :
    listStep publicKey m e = m := by
  cases e with
  | fetchResolve resp => simp [listStep, hin]
  | timerFire => simp [listStep, hrs]
  | selectAll => simp [isEnvEvent] at he
  | selectFilter f => simp [isEnvEvent] at he
  | setPage p => simp [isEnvEvent] at he
  | deactivate => simp [isEnvEvent] at he
  | activate => simp [isEnvEvent] at he

theorem listRun_env_fixed (publicKey : String) (m : ListModel) (evs : List ListEvent)
    (hin : m.st.inFlight = false) (hrs : m.st.refreshScheduled = false)
    (henv : ∀ e ∈ evs, isEnvEvent e = true) :
    listRun publicKey m evs = m := by
  induction evs with
  | nil => rfl
  | cons e evs ih =>
    have he : isEnvEvent e = true := henv e (List.mem_cons_self e evs)
    have hevs : ∀ x ∈ evs, isEnvEvent x = true :=
      fun x hx => henv x (List.mem_cons_of_mem e hx)
    show listRun publicKey (listStep publicKey m e) evs = m
    rw [listStep_env_fixed publicKey m e hin hrs he]
    exact ih hevs

theorem listStep_unauth_filtered (m : ListModel) (e : ListEvent)
    (hf : m.st.filteredRecords = []) (hui : isFilterButtonEvent e = false) :
    (listStep "" m e).st.filteredRecords = [] := by
  cases e with
  | fetchResolve resp =>
    by_cases hin : m.st.inFlight = true
    · have hok := filterRecords_falsy (sortRecords resp) m.st.filteredRecords m.filter
      rw [hf] at hok
      simp [listStep, hin, hok, hf]
    · simp [listStep, hin, hf]
  | timerFire =>
    by_cases h : m.st.refreshScheduled = true <;> simp [listStep, h, hf]
  | selectAll => simp [isFilterButtonEvent] at hui
  | selectFilter f => simp [isFilterButtonEvent] at hui
  | setPage p => simp [listStep, hf]
  | deactivate => simp [listStep, hf]
  | activate => simp [listStep, oninitState]

theorem listRun_unauth_filtered (m : ListModel) (evs : List ListEvent)
    (hf : m.st.filteredRecords = [])
    (hui : ∀ e ∈ evs, isFilterButtonEvent e = false) :
    (listRun "" m evs).st.filteredRecords = [] := by
  induction evs generalizing m with
  | nil => exact hf
  | cons e evs ih =>
    have he : isFilterButtonEvent e = false := hui e (List.mem_cons_self e evs)
    have hevs : ∀ x ∈ evs, isFilterButtonEvent x = false :=
      fun x hx => hui x (List.mem_cons_of_mem e hx)
    show (listRun "" (listStep "" m e) evs).st.filteredRecords = []
    exact ih (listStep "" m e) (listStep_unauth_filtered m e hf he) hevs

/-- C1: In the list view, for every records array and every authenticated
viewer identity, applying a filter mode yields a subset of the full records
array; the All mode yields the full array (the All callback assigns the full
records array, and an unset or unrecognised filter value leaves the filter
condition unset so the full array is assigned); the owned mode yields exactly
the records whose owner equals the viewer public key; the custodian mode
yields exactly those whose custodian equals it; and the reporting mode yields
exactly the records having at least one property whose reporters list
contains it. -/
theorem filter_modes_correct (records oldFiltered : List Record) (publicKey : String)
    (filter : Option String) (m : ListModel)
    (hpk : publicKey ≠ "")
    (hwf : ∀ r ∈ records, WellFormedRecord r) :
    (∃ out, filterRecords records oldFiltered publicKey filter = .ok out ∧ out ⊆ records) ∧
    (listStep publicKey m .selectAll).st.filteredRecords = m.st.records ∧
    (∀ f : Option String, f ≠ some "owned" → f ≠ some "custodian" → f ≠ some "reporting" →
      filterRecords records oldFiltered publicKey f = .ok records) ∧
    (filterRecords records oldFiltered publicKey (some "owned") =
        .ok (records.filter (ownedCond publicKey)) ∧
      ∀ r, r ∈ records.filter (ownedCond publicKey) ↔
        r ∈ records ∧ r.owner = publicKey) ∧
    (filterRecords records oldFiltered publicKey (some "custodian") =
        .ok (records.filter (custodianCond publicKey)) ∧
      ∀ r, r ∈ records.filter (custodianCond publicKey) ↔
        r ∈ records ∧ r.custodian = publicKey) ∧
    (filterRecords records oldFiltered publicKey (some "reporting") =
        .ok (records.filter (fun r => r.properties.any (reportsTo publicKey))) ∧
      ∀ r, r ∈ records.filter (fun r => r.properties.any (reportsTo publicKey)) ↔
        r ∈ records ∧ ∃ p ∈ r.properties, publicKey ∈ p.reporters.getD []) := by
  refine ⟨?_, rfl, ?_, ⟨?_, ?_⟩, ⟨?_, ?_⟩, ⟨?_, ?_⟩⟩
  · obtain ⟨out, hok, hsub⟩ :=
      filterRecords_ok_of_wf records oldFiltered publicKey filter hwf
    exact ⟨out, hok, hsub hpk⟩
  · intro f h1 h2 h3
    exact filterRecords_default records oldFiltered publicKey f hpk h1 h2 h3
  · exact filterRecords_owned records oldFiltered publicKey hpk
  · intro r
    simp [List.mem_filter, ownedCond]
  · exact filterRecords_custodian records oldFiltered publicKey hpk
  · intro r
    simp [List.mem_filter, custodianCond]
  · exact filterRecords_reporting records oldFiltered publicKey hpk hwf
  · intro r
    simp [List.mem_filter, List.any_eq_true, reportsTo, List.elem_iff]

/-- Witness for C1: with two concrete records and the identity alice, the
owned filter keeps exactly the record owned by alice. -/
theorem filter_modes_correct_witness :
    (("alice" : String) ≠ "" ∧ ∀ r ∈ [recA, recB], WellFormedRecord r) ∧
    filterRecords [recA, recB] [] "alice" (some "owned") = .ok [recA] := by
  refine ⟨⟨by decide, by decide⟩, ?_⟩
  have h := (filter_modes_correct [recA, recB] [] "alice" (some "owned") initListModel
    (by decide) (by decide)).2.2.2.1.1
  rw [h]
  rfl

/-- C4: In the detail view, the update form is rendered exactly when the
viewer public key is contained in the reporters list of the current property
state; and since no code path of the view assigns the property state, in
every reachable state the property is unset, the reporters read defaults to
the empty list, and the form is never rendered. -/
theorem update_form_never_rendered (publicKey : String) (evs : List ProvEvent) :
    (∀ s : ProvenanceState,
      showsUpdateForm s publicKey = (lodashGetPropertyReporters s).contains publicKey) ∧
    (provRun provOninitState evs).property = none ∧
    lodashGetPropertyReporters (provRun provOninitState evs) = [] ∧
    showsUpdateForm (provRun provOninitState evs) publicKey = false := by
  have hprop : (provRun provOninitState evs).property = none := by
    rw [provRun_property]
    rfl
  have hrep : lodashGetPropertyReporters (provRun provOninitState evs) = [] := by
    simp [lodashGetPropertyReporters, hprop]
  exact ⟨fun s => rfl, hprop, hrep, by simp [showsUpdateForm, hrep, List.contains]⟩

/-- C5: After every fetch resolution the stored records array is the fetched
collection sorted descending by latest property update time: a permutation of
the response (so the sort is total over the fetched collection), pairwise
descending, and a record with a strictly greater latest update time precedes
any record with a smaller one. -/
theorem records_sorted_desc_after_fetch (publicKey : String) (m : ListModel)
    (resp out : List Record)
    (hin : m.st.inFlight = true)
    (hout : out = (listStep publicKey m (.fetchResolve resp)).st.records) :
    out.Perm resp ∧
    out.Pairwise (fun a b => getLatestPropertyUpdateTime b ≤ getLatestPropertyUpdateTime a) ∧
    ∀ i j : Fin out.length,
      getLatestPropertyUpdateTime (out.get j) < getLatestPropertyUpdateTime (out.get i) →
      i < j := by
  have hsort : out = sortRecords resp := by
    rw [hout, listStep_fetch_records publicKey m resp hin]
  subst hsort
  refine ⟨sortRecords_perm resp, sortRecords_pairwise resp, ?_⟩
  intro i j hlt
  rcases lt_trichotomy i j with h1 | h1 | h1
  · exact h1
  · exact absurd (h1 ▸ hlt) (lt_irrefl _)
  · have hle := (List.pairwise_iff_get.mp (sortRecords_pairwise resp)) j i h1
    exact absurd hle (not_le_of_lt hlt)

/-- Witness for C5: fetching two concrete records stores them reordered
descending by latest update time. -/
theorem records_sorted_desc_after_fetch_witness :
    (initListModel.st.inFlight = true ∧
      [recB, recA] =
        (listStep "alice" initListModel (.fetchResolve [recA, recB])).st.records) ∧
    ([recB, recA].Perm [recA, recB] ∧
      List.Pairwise
        (fun a b => getLatestPropertyUpdateTime b ≤ getLatestPropertyUpdateTime a)
        [recB, recA] ∧
      ∀ i j : Fin ([recB, recA] : List Record).length,
        getLatestPropertyUpdateTime (([recB, recA] : List Record).get j) <
          getLatestPropertyUpdateTime (([recB, recA] : List Record).get i) →
        i < j) :=
  ⟨⟨rfl, by decide⟩,
    records_sorted_desc_after_fetch "alice" initListModel [recA, recB] [recB, recA]
      rfl (by decide)⟩

/-- C2 counterexample: deactivating the list view while a fetch is in flight
does not stop the late response: resolved after the deactivation it still
mutates the view state (the records array changes) and schedules another
refresh timeout, contradicting the claim that no state mutation and no
further network activity can follow teardown. -/
theorem late_fetch_mutates_after_deactivation :
    (listRun "alice" initListModel [.deactivate, .fetchResolve [recA]]).st.records ≠
      (listRun "alice" initListModel [.deactivate]).st.records ∧
    (listRun "alice" initListModel [.deactivate, .fetchResolve [recA]]).st.active = false ∧
    (listRun "alice" initListModel
      [.deactivate, .fetchResolve [recA]]).st.refreshScheduled = true := by
  decide

/-- C2 amended: deactivation cancels the pending scheduled re-fetch in both
stateful views, and when no fetch is in flight at deactivation no subsequent
fetch resolution or timer firing changes the list model at all, so no further
network activity occurs and no state is mutated; a fetch already in flight at
deactivation, however, still runs its callback when its response arrives. -/
theorem deactivation_cancels_pending_refetch (publicKey : String) (m : ListModel)
    (s : ProvenanceState) (evs : List ListEvent)
    (hin : m.st.inFlight = false)
    (henv : ∀ e ∈ evs, isEnvEvent e = true) :
    (listStep publicKey m .deactivate).st.refreshScheduled = false ∧
    (provStep s .deactivate).refreshScheduled = false ∧
    listRun publicKey (listStep publicKey m .deactivate) evs =
      listStep publicKey m .deactivate := by
  refine ⟨rfl, rfl, ?_⟩
  exact listRun_env_fixed publicKey _ evs hin rfl henv

/-- Witness for the amended C2: a model that finished its fetch is frozen by
deactivation even under later timer and fetch events. -/
theorem deactivation_cancels_pending_refetch_witness :
    ((listRun "alice" initListModel [.fetchResolve []]).st.inFlight = false ∧
      (∀ e ∈ ([.timerFire, .fetchResolve [recA]] : List ListEvent), isEnvEvent e = true)) ∧
    ((listStep "alice" (listRun "alice" initListModel [.fetchResolve []])
        .deactivate).st.refreshScheduled = false ∧
      (provStep provOninitState .deactivate).refreshScheduled = false ∧
      listRun "alice"
          (listStep "alice" (listRun "alice" initListModel [.fetchResolve []]) .deactivate)
          [.timerFire, .fetchResolve [recA]] =
        listStep "alice" (listRun "alice" initListModel [.fetchResolve []]) .deactivate) :=
  ⟨⟨by decide, by decide⟩,
    deactivation_cancels_pending_refetch "alice"
      (listRun "alice" initListModel [.fetchResolve []]) provOninitState
      [.timerFire, .fetchResolve [recA]] (by decide) (by decide)⟩

/-- C3 counterexample: for an unauthenticated viewer the fetched records are
never copied into the filtered array, so after a fetch delivering one record
the stored full array holds it while the filtered array that the view
renders is still empty, contradicting the claim that the displayed list is
the unfiltered fetched collection. -/
theorem unauthenticated_list_not_unfiltered :
    (listRun "" initListModel [.fetchResolve [recA]]).st.records = [recA] ∧
    (listRun "" initListModel [.fetchResolve [recA]]).st.filteredRecords = [] ∧
    (listRun "" initListModel [.fetchResolve [recA]]).st.filteredRecords ≠
      (listRun "" initListModel [.fetchResolve [recA]]).st.records ∧
    visibleRows (listRun "" initListModel [.fetchResolve [recA]]).st = [] := by
  decide

/-- C3 amended: for an unauthenticated viewer (empty public key) the list
view renders no filter controls but still renders pagination controls; the
displayed list, however, is not the fetched collection: filterRecords skips
its body without a public key, so in every run without filter-button events
(none can occur, the buttons are not rendered) the filtered array keeps its
initial empty value and the view renders no rows. -/
theorem unauthenticated_view_controls_and_empty_list (evs : List ListEvent)
    (hui : ∀ e ∈ evs, isFilterButtonEvent e = false) :
    (controlButtons (listRun "" initListModel evs).st "").hasFilterGroup = false ∧
    (controlButtons (listRun "" initListModel evs).st "").hasPagingButtons = true ∧
    (listRun "" initListModel evs).st.filteredRecords = [] ∧
    visibleRows (listRun "" initListModel evs).st = [] := by
  have hf := listRun_unauth_filtered initListModel evs rfl hui
  refine ⟨?_, ?_, hf, ?_⟩
  · simp [controlButtons]
  · simp [controlButtons]
  · simp [visibleRows, jsSlice, hf]

/-- Witness for the amended C3: a run with a fetch and a page selection. -/
theorem unauthenticated_view_controls_and_empty_list_witness :
    (∀ e ∈ ([.fetchResolve [recA, recB], .setPage 1] : List ListEvent),
      isFilterButtonEvent e = false) ∧
    ((controlButtons (listRun "" initListModel
        [.fetchResolve [recA, recB], .setPage 1]).st "").hasFilterGroup = false ∧
      (controlButtons (listRun "" initListModel
        [.fetchResolve [recA, recB], .setPage 1]).st "").hasPagingButtons = true ∧
      (listRun "" initListModel
        [.fetchResolve [recA, recB], .setPage 1]).st.filteredRecords = [] ∧
      visibleRows (listRun "" initListModel
        [.fetchResolve [recA, recB], .setPage 1]).st = []) :=
  ⟨by decide,
    unauthenticated_view_controls_and_empty_list
      [.fetchResolve [recA, recB], .setPage 1] (by decide)⟩

/-- C9 counterexample: the reporting filter of the list view reads the
reporters list of each property without a safe default, so on a record whose
only property lacks the reporters field the filter operation fails instead
of returning an empty-collection default. -/
theorem reporting_filter_fails_on_missing_reporters :
    filterRecords [badRecord] [] "alice" (some "reporting") = .error () := rfl

/-- C9 amended: the detail view reads its property, reporters and provenance
data through safe-default lookups that return empty collections when the
data is absent, and the reporting filter of the list view succeeds on
records whose properties all carry reporters lists; but that filter reads
the reporters field without a default, so it fails on a property lacking it,
as the counterexample shows. -/
theorem safe_defaults_detail_view_only (s : ProvenanceState) (records : List Record)
    (publicKey : String) (prop : RecordProperty)
    (hprop : s.property = none) (hprov : s.provenance = none)
    (hrep : prop.reporters = none)
    (hwf : ∀ r ∈ records, WellFormedRecord r) :
    lodashGetPropertyReporters s = [] ∧
    lodashGetProvenance s = [] ∧
    lodashGetPropertyReporters { s with property := some prop } = [] ∧
    ∃ out, filterRecords records [] publicKey (some "reporting") = .ok out := by
  refine ⟨?_, ?_, ?_, ?_⟩
  · simp [lodashGetPropertyReporters, hprop]
  · simp [lodashGetProvenance, hprov]
  · simp [lodashGetPropertyReporters, hrep]
  · by_cases hpk : publicKey = ""
    · subst hpk
      exact ⟨[], filterRecords_falsy records [] (some "reporting")⟩
    · exact ⟨_, filterRecords_reporting records [] publicKey hpk hwf⟩

/-- Witness for the amended C9 at concrete data. -/
theorem safe_defaults_detail_view_only_witness :
    (provOninitState.property = none ∧ provOninitState.provenance = none ∧
      bareProp.reporters = none ∧ ∀ r ∈ [recA], WellFormedRecord r) ∧
    (lodashGetPropertyReporters provOninitState = [] ∧
      lodashGetProvenance provOninitState = [] ∧
      lodashGetPropertyReporters { provOninitState with property := some bareProp } = [] ∧
      ∃ out, filterRecords [recA] [] "alice" (some "reporting") = .ok out) :=
  ⟨⟨rfl, rfl, rfl, by decide⟩,
    safe_defaults_detail_view_only provOninitState [recA] "alice" bareProp
      rfl rfl rfl (by decide)⟩

/-- C6: the maxPage value the list view passes to the paging buttons, with or
without an authenticated viewer, is the floor of the filtered record count
divided by the page size of 50, and the rendered page is the slice of the
filtered records from currentPage times 50 to the next page boundary:
element i of the page is element currentPage times 50 plus i of the filtered
records. -/
theorem list_paging_floor_and_slice (s : FishListState) :
    pagingMaxPage s = ⌊(s.filteredRecords.length : ℚ) / (PAGE_SIZE : ℚ)⌋₊ ∧
    (controlButtons s "alice").maxPage = pagingMaxPage s ∧
    (controlButtons s "").maxPage = pagingMaxPage s ∧
    visibleRows s = (s.filteredRecords.drop (s.currentPage * PAGE_SIZE)).take PAGE_SIZE ∧
    ∀ i : Nat, i < (visibleRows s).length →
      (visibleRows s)[i]? = s.filteredRecords[s.currentPage * PAGE_SIZE + i]? := by
  have hslice : visibleRows s =
      (s.filteredRecords.drop (s.currentPage * PAGE_SIZE)).take PAGE_SIZE := by
    unfold visibleRows jsSlice
    have h50 : (s.currentPage + 1) * PAGE_SIZE - s.currentPage * PAGE_SIZE = PAGE_SIZE := by
      simp only [PAGE_SIZE]
      omega
    rw [h50]
  refine ⟨(Nat.floor_div_eq_div _ _).symm, rfl, rfl, hslice, ?_⟩
  intro i hi
  rw [hslice] at hi ⊢
  have hi50 : i < PAGE_SIZE := lt_of_lt_of_le hi (List.length_take_le _ _)
  rw [List.getElem?_take_of_lt hi50, List.getElem?_drop]

/-- Witness for C6: on a concrete state the first rendered row is the first
filtered record. -/
theorem list_paging_floor_and_slice_witness :
    0 < (visibleRows sampleListState).length ∧
    (visibleRows sampleListState)[0]? =
      sampleListState.filteredRecords[sampleListState.currentPage * PAGE_SIZE + 0]? :=
  ⟨by decide, (list_paging_floor_and_slice sampleListState).2.2.2.2 0 (by decide)⟩

/-- C7: the detail view passes to the paging buttons the ownership-history
length divided by the page size as exact (unfloored) number division; it
agrees with the floored formula of the list view exactly when the length is
a multiple of 50, so the two differ whenever it is not. -/
theorem provenance_max_page_unfloored (s : FishListState) (t : ProvenanceState)
    (hlen : (lodashGetProvenance t).length = s.filteredRecords.length) :
    provenanceMaxPage t = ((lodashGetProvenance t).length : ℚ) / (PAGE_SIZE : ℚ) ∧
    (provenanceMaxPage t = (pagingMaxPage s : ℚ) ↔
      PAGE_SIZE ∣ (lodashGetProvenance t).length) := by
  refine ⟨rfl, ?_⟩
  have hpm : pagingMaxPage s = (lodashGetProvenance t).length / PAGE_SIZE := by
    rw [pagingMaxPage, hlen]
  rw [hpm]
  unfold provenanceMaxPage
  constructor
  · intro h
    have h50 : (PAGE_SIZE : ℚ) ≠ 0 := by norm_num [PAGE_SIZE]
    rw [div_eq_iff h50] at h
    have h3 : (lodashGetProvenance t).length =
        (lodashGetProvenance t).length / PAGE_SIZE * PAGE_SIZE := by
      exact_mod_cast h
    refine ⟨(lodashGetProvenance t).length / PAGE_SIZE, ?_⟩
    rw [mul_comm]
    exact h3
  · rintro ⟨c, hc⟩
    rw [hc]
    have hpos : 0 < PAGE_SIZE := by norm_num [PAGE_SIZE]
    rw [Nat.mul_div_cancel_left c hpos]
    push_cast
    have h50 : (PAGE_SIZE : ℚ) ≠ 0 := by norm_num [PAGE_SIZE]
    field_simp

/-- Witness for C7: one owner entry gives a fractional max page of one
fiftieth while the list formula gives zero. -/
theorem provenance_max_page_unfloored_witness :
    (lodashGetProvenance sampleProvState).length =
      oneRecordListState.filteredRecords.length ∧
    (provenanceMaxPage sampleProvState =
        ((lodashGetProvenance sampleProvState).length : ℚ) / (PAGE_SIZE : ℚ) ∧
      (provenanceMaxPage sampleProvState = (pagingMaxPage oneRecordListState : ℚ) ↔
        PAGE_SIZE ∣ (lodashGetProvenance sampleProvState).length)) :=
  ⟨by decide, provenance_max_page_unfloored oneRecordListState sampleProvState (by decide)⟩

/-- C8: the selected filter mode is stored in a module-level variable:
deactivating and re-activating the list view resets the per-activation view
state but leaves the stored filter unchanged, and every fetch resolution
re-applies the stored filter to the freshly fetched data. -/
theorem filter_persists_and_reapplied (publicKey : String) (m : ListModel)
    (resp : List Record)
    (hin : m.st.inFlight = true)
    (hwf : ∀ r ∈ resp, WellFormedRecord r) :
    (listStep publicKey m .deactivate).filter = m.filter ∧
    (listStep publicKey m .activate).filter = m.filter ∧
    (listStep publicKey m .activate).st = oninitState ∧
    ∃ out,
      filterRecords (sortRecords resp) m.st.filteredRecords publicKey m.filter = .ok out ∧
      (listStep publicKey m (.fetchResolve resp)).st.filteredRecords = out := by
  refine ⟨rfl, rfl, rfl, ?_⟩
  have hwfs : ∀ r ∈ sortRecords resp, WellFormedRecord r := fun r hr =>
    hwf r ((sortRecords_perm resp).mem_iff.mp hr)
  obtain ⟨out, hok, -⟩ :=
    filterRecords_ok_of_wf (sortRecords resp) m.st.filteredRecords publicKey m.filter hwfs
  refine ⟨out, hok, ?_⟩
  rw [listStep_fetchResolve_ok publicKey m resp out hin hok]

/-- Witness for C8 with the custodian filter stored across a lifecycle. -/
theorem filter_persists_and_reapplied_witness :
    (custodianModel.st.inFlight = true ∧ ∀ r ∈ [recA, recB], WellFormedRecord r) ∧
    ((listStep "alice" custodianModel .deactivate).filter = custodianModel.filter ∧
      (listStep "alice" custodianModel .activate).filter = custodianModel.filter ∧
      (listStep "alice" custodianModel .activate).st = oninitState ∧
      ∃ out,
        filterRecords (sortRecords [recA, recB]) custodianModel.st.filteredRecords
          "alice" custodianModel.filter = .ok out ∧
        (listStep "alice" custodianModel
          (.fetchResolve [recA, recB])).st.filteredRecords = out) :=
  ⟨⟨rfl, by decide⟩,
    filter_persists_and_reapplied "alice" custodianModel [recA, recB] rfl (by decide)⟩

/-- C10: the All button assigns the full records array to the filtered array
but leaves the module-level filter variable unchanged, so when a non-All
filter was selected before, the next fetch resolution re-applies that stored
filter to the fresh data instead of leaving the list unfiltered. -/
theorem all_button_keeps_module_filter (publicKey : String) (m : ListModel)
    (resp : List Record) (f : String)
    (hpk : publicKey ≠ "")
    (hin : m.st.inFlight = true)
    (hwf : ∀ r ∈ resp, WellFormedRecord r)
    (hfil : m.filter = some f)
    (hsel : f = "owned" ∨ f = "custodian" ∨ f = "reporting") :
    (listStep publicKey m .selectAll).filter = some f ∧
    (listStep publicKey m .selectAll).st.filteredRecords = m.st.records ∧
    ∃ out,
      filterRecords (sortRecords resp) m.st.records publicKey (some f) = .ok out ∧
      (listStep publicKey (listStep publicKey m .selectAll)
        (.fetchResolve resp)).st.filteredRecords = out ∧
      (f = "owned" → out = (sortRecords resp).filter (ownedCond publicKey)) ∧
      (f = "custodian" → out = (sortRecords resp).filter (custodianCond publicKey)) ∧
      (f = "reporting" →
        out = (sortRecords resp).filter (fun r => r.properties.any (reportsTo publicKey))) := by
  have hwfs : ∀ r ∈ sortRecords resp, WellFormedRecord r := fun r hr =>
    hwf r ((sortRecords_perm resp).mem_iff.mp hr)
  have hm1fil : (listStep publicKey m .selectAll).filter = some f := hfil
  have hm1in : (listStep publicKey m .selectAll).st.inFlight = true := hin
  obtain ⟨out, hok, -⟩ :=
    filterRecords_ok_of_wf (sortRecords resp) m.st.records publicKey (some f) hwfs
  have hfetch :
      (listStep publicKey (listStep publicKey m .selectAll)
        (.fetchResolve resp)).st.filteredRecords = out := by
    have hok2 : filterRecords (sortRecords resp)
        (listStep publicKey m .selectAll).st.filteredRecords publicKey
        (listStep publicKey m .selectAll).filter = .ok out := by
      rw [hm1fil]
      exact hok
    rw [listStep_fetchResolve_ok publicKey (listStep publicKey m .selectAll) resp out
      hm1in hok2]
  refine ⟨hm1fil, rfl, out, hok, hfetch, ?_, ?_, ?_⟩
  · intro hf
    subst hf
    rw [filterRecords_owned (sortRecords resp) m.st.records publicKey hpk] at hok
    exact (Except.ok.inj hok).symm
  · intro hf
    subst hf
    rw [filterRecords_custodian (sortRecords resp) m.st.records publicKey hpk] at hok
    exact (Except.ok.inj hok).symm
  · intro hf
    subst hf
    rw [filterRecords_reporting (sortRecords resp) m.st.records publicKey hpk hwfs] at hok
    exact (Except.ok.inj hok).symm

/-- Witness for C10: with the owned filter stored, choosing All and then
receiving a fetch leaves only the record owned by alice, not the full
fetched list. -/
theorem all_button_keeps_module_filter_witness :
    (("alice" : String) ≠ "" ∧ ownedModel.st.inFlight = true ∧
      (∀ r ∈ [recA, recB], WellFormedRecord r) ∧
      ownedModel.filter = some "owned") ∧
    ((listStep "alice" ownedModel .selectAll).filter = some "owned" ∧
      (listStep "alice" ownedModel .selectAll).st.filteredRecords =
        ownedModel.st.records ∧
      ∃ out,
        filterRecords (sortRecords [recA, recB]) ownedModel.st.records "alice"
          (some "owned") = .ok out ∧
        (listStep "alice" (listStep "alice" ownedModel .selectAll)
          (.fetchResolve [recA, recB])).st.filteredRecords = out ∧
        (("owned" : String) = "owned" →
          out = (sortRecords [recA, recB]).filter (ownedCond "alice")) ∧
        (("owned" : String) = "custodian" →
          out = (sortRecords [recA, recB]).filter (custodianCond "alice")) ∧
        (("owned" : String) = "reporting" →
          out = (sortRecords [recA, recB]).filter
            (fun r => r.properties.any (reportsTo "alice")))) ∧
    (sortRecords [recA, recB]).filter (ownedCond "alice") ≠ sortRecords [recA, recB] :=
  ⟨⟨by decide, rfl, by decide, rfl⟩,
    all_button_keeps_module_filter "alice" ownedModel [recA, recB] "owned"
      (by decide) rfl (by decide) rfl (Or.inl rfl),
    by decide⟩

end FishClient
